import Mathlib

/-!
# Verification of the `rim` editor core (src/main.rs)

A shallow embedding of the editor's buffer / cursor / viewport logic.

The text buffer is modelled as a `List Char`; `String::len`, `String::insert`
and `String::remove` are modelled with character indices (the source mixes
byte and character indices, which coincide on the single-byte characters the
input loop accepts).  Rust `usize` subtraction is modelled by truncated `Nat`
subtraction; all theorems below either supply hypotheses under which no
underflow occurs or evaluate the definitions on concrete inputs.

Terminal output (`execute!` of `anes` cursor-movement sequences, and the
"not allowed" sound) is modelled by returning the list of emitted
`TermAction`s next to the updated editor state.  A `panic`/`expect`
failure/`todo!` in the source is modelled by returning `none`.
-/

/-- The source's `enum EditorMode { Normal, Insert }`. -/
inductive EditorMode where
  | Normal
  | Insert
  deriving DecidableEq, Repr

/-- The source's `struct Editor` (stdout handles are left out; terminal
effects are returned explicitly by the operations). -/
structure Editor where
  width : Nat
  height : Nat
  text_buffer : List Char
  cursor_index : Nat
  mode : EditorMode
  top_line : Nat
  deriving DecidableEq, Repr

/-- Terminal side effects the editor operations emit (`anes` sequences and
the `play_not_allowed_sound` call). -/
inductive TermAction where
  | moveRight (n : Nat)
  | moveLeft (n : Nat)
  | moveUp (n : Nat)
  | moveDown (n : Nat)
  | moveToNextLine (n : Nat)
  | moveToPreviousLine (n : Nat)
  | moveToColumn (n : Nat)
  | playNotAllowedSound
  deriving DecidableEq, Repr

/-- Strip one trailing carriage return: the `\r`-removal step of Rust's
`str::lines` (applied to every segment that was terminated by `'\n'`). -/
def stripCR : List Char → List Char
  | [] => []
  | c :: rest => if rest = [] then (if c = '\r' then [] else [c]) else c :: stripCR rest

/-- Worker for `rustLines`: `cur` is the current (reversed) segment of
characters read since the last `'\n'`. -/
def rustLinesGo : List Char → List Char → List (List Char)
  | cur, [] => if cur = [] then [] else [cur.reverse]
  | cur, c :: rest =>
    if c = '\n' then stripCR cur.reverse :: rustLinesGo [] rest
    else rustLinesGo (c :: cur) rest

/-- Rust's `str::lines`: split on `'\n'`; a segment terminated by `'\n'`
additionally loses a trailing `'\r'`; a final unterminated segment is kept
as is; the empty string yields no lines. -/
def rustLines (s : List Char) : List (List Char) :=
  rustLinesGo [] s

/-- Rust's `str::ends_with("\n")`. -/
def ends_with_nl (s : List Char) : Prop :=
  s.getLast? = some '\n'

instance (s : List Char) : Decidable (ends_with_nl s) := by
  unfold ends_with_nl; infer_instance

/-- `Editor::get_lines`: empty buffer gives one empty line; a buffer ending
in `'\n'` gets one extra empty line appended after the split result. -/
def get_lines (buf : List Char) : List (List Char) :=
  if buf.length = 0 then [[]]
  else if ends_with_nl buf then rustLines buf ++ [[]] else rustLines buf

/-- `Editor::get_content_of_row`: `Some("")` for the empty buffer, otherwise
the `row`-th derived line if it exists. -/
def get_content_of_row (buf : List Char) (row : Nat) : Option (List Char) :=
  if buf.length = 0 then some []
  else (get_lines buf)[row]?

/-- `Editor::get_num_rows`. -/
def get_num_rows (buf : List Char) : Nat :=
  if buf.length = 0 then 1
  else (get_lines buf).length

/-- `Editor::get_cursor_row_index`: walk the buffer, counting `'\n'`s seen
strictly before the cursor position; falls off the loop (returning the
accumulated row) when the cursor sits at the end of the buffer. -/
def get_cursor_row_index : List Char → Nat → Nat
  | [], _ => 0
  | c :: rest, cursor =>
    if cursor = 0 then 0
    else (if c = '\n' then 1 else 0) + get_cursor_row_index rest (cursor - 1)

/-- Loop body of `Editor::get_cursor_col_index`: `chars` is the number of
characters consumed by the lines already passed (each line plus its break
marker). -/
def get_cursor_col_index_go (cursor : Nat) : Nat → List (List Char) → Nat
  | _, [] => 0
  | chars, line :: rest =>
    if cursor ≤ chars + line.length then cursor - chars
    else get_cursor_col_index_go cursor (chars + line.length + 1) rest

/-- `Editor::get_cursor_col_index`: walks `text_buffer.lines()` (note:
`lines()`, not `get_lines`, so no trailing empty line) accumulating consumed
characters; returns `0` if the loop falls through. -/
def get_cursor_col_index (buf : List Char) (cursor : Nat) : Nat :=
  get_cursor_col_index_go cursor 0 (rustLines buf)

/-- `Editor::move_cursor_right`.  Returns the updated editor and the emitted
terminal actions; `none` models the `expect` panic on a failed row lookup. -/
def move_cursor_right (e : Editor) : Option (Editor × List TermAction) :=
  if e.cursor_index = e.text_buffer.length then
    some (e, [TermAction.playNotAllowedSound])
  else
    let row := get_cursor_row_index e.text_buffer e.cursor_index
    match get_content_of_row e.text_buffer row with
    | none => none
    | some rowContent =>
      let row_len := rowContent.length
      let col := get_cursor_col_index e.text_buffer e.cursor_index
      let e' := { e with cursor_index := e.cursor_index + 1 }
      if col < row_len then some (e', [TermAction.moveRight 1])
      else some (e', [TermAction.moveToNextLine 1])

/-- `Editor::move_cursor_left`.  The row lookup happens after the cursor
index was already decremented, exactly as in the source. -/
def move_cursor_left (e : Editor) : Option (Editor × List TermAction) :=
  if e.cursor_index = 0 then
    some (e, [TermAction.playNotAllowedSound])
  else
    let col := get_cursor_col_index e.text_buffer e.cursor_index
    let e' := { e with cursor_index := e.cursor_index - 1 }
    if col > 0 then some (e', [TermAction.moveLeft 1])
    else
      let current_row_index := get_cursor_row_index e'.text_buffer e'.cursor_index
      match get_content_of_row e'.text_buffer current_row_index with
      | none => none
      | some previous_row =>
        some (e', TermAction.moveToPreviousLine 1 ::
          (if previous_row.length > 0 then [TermAction.moveRight previous_row.length] else []))

/-- `Editor::move_cursor_down`.  `none` models the `expect` panics on the
row lookups and the panic of the slice `current_row[col_index..]` when
`col_index` exceeds the row length. -/
def move_cursor_down (e : Editor) : Option (Editor × List TermAction) :=
  let row_index := get_cursor_row_index e.text_buffer e.cursor_index
  if get_num_rows e.text_buffer = row_index + 1 then
    some (e, [TermAction.playNotAllowedSound])
  else
    let scrolled : Bool := decide (e.height - 2 ≤ row_index - e.top_line)
    let e1 := if scrolled then { e with top_line := e.top_line + 1 } else e
    let col_index := get_cursor_col_index e.text_buffer e.cursor_index
    match get_content_of_row e.text_buffer row_index,
          get_content_of_row e.text_buffer (row_index + 1) with
    | some current_row, some next_row =>
      let next_row_len := next_row.length
      if next_row.length < col_index + 1 then
        if col_index ≤ current_row.length then
          some ({ e1 with cursor_index :=
                    e1.cursor_index + (current_row.length - col_index) + 1 + next_row_len },
            if scrolled then [TermAction.moveToColumn 1]
            else TermAction.moveToNextLine 1 ::
              (if next_row_len > 0 then [TermAction.moveRight next_row_len] else []))
        else none
      else
        if col_index ≤ current_row.length then
          some ({ e1 with cursor_index :=
                    e1.cursor_index + (current_row.length - col_index) + 1 + col_index },
            if scrolled then [] else [TermAction.moveDown 1])
        else none
    | _, _ => none

/-- `Editor::move_cursor_up`.  `none` models the `expect` panics and the
panics of the slices `current_row[..col_index]` / `previous_row[col_index..]`. -/
def move_cursor_up (e : Editor) : Option (Editor × List TermAction) :=
  let row_index := get_cursor_row_index e.text_buffer e.cursor_index
  if row_index = 0 then
    some (e, [TermAction.playNotAllowedSound])
  else
    let scrolled : Bool := decide (e.top_line ≠ 0 ∧ row_index - e.top_line ≤ 0)
    let e1 := if scrolled then { e with top_line := e.top_line - 1 } else e
    let col_index := get_cursor_col_index e.text_buffer e.cursor_index
    match get_content_of_row e.text_buffer row_index,
          get_content_of_row e.text_buffer (row_index - 1) with
    | some current_row, some previous_row =>
      let previous_row_len := previous_row.length
      if previous_row.length < col_index + 1 then
        if col_index ≤ current_row.length then
          some ({ e1 with cursor_index := e1.cursor_index - (col_index + 1) },
            (if scrolled then [] else [TermAction.moveToPreviousLine 1]) ++
              (if previous_row_len > 0 then [TermAction.moveToColumn (previous_row_len + 1)] else []))
        else none
      else
        if col_index ≤ previous_row.length then
          some ({ e1 with cursor_index :=
                    e1.cursor_index - ((previous_row.length - col_index) + 1) - col_index },
            if scrolled then [] else [TermAction.moveUp 1])
        else none
    | _, _ => none

/-- `Editor::move_cursor_to_next_line` (Enter key). -/
def move_cursor_to_next_line (e : Editor) : Option (Editor × List TermAction) :=
  let row_index := get_cursor_row_index e.text_buffer e.cursor_index
  if get_num_rows e.text_buffer = row_index + 1 then
    some (e, [TermAction.playNotAllowedSound])
  else
    let col_index := get_cursor_col_index e.text_buffer e.cursor_index
    match get_content_of_row e.text_buffer row_index with
    | none => none
    | some current_row =>
      if col_index ≤ current_row.length then
        some ({ e with cursor_index := e.cursor_index + (current_row.length - col_index) + 1 },
          [TermAction.moveToNextLine 1])
      else none

/-- Rust `char::is_ascii_alphanumeric`. -/
def is_ascii_alphanumeric (c : Char) : Bool :=
  decide ((48 ≤ c.toNat ∧ c.toNat ≤ 57) ∨ (65 ≤ c.toNat ∧ c.toNat ≤ 90) ∨
    (97 ≤ c.toNat ∧ c.toNat ≤ 122))

/-- Rust `char::is_ascii_punctuation`. -/
def is_ascii_punctuation (c : Char) : Bool :=
  decide ((33 ≤ c.toNat ∧ c.toNat ≤ 47) ∨ (58 ≤ c.toNat ∧ c.toNat ≤ 64) ∨
    (91 ≤ c.toNat ∧ c.toNat ≤ 96) ∨ (123 ≤ c.toNat ∧ c.toNat ≤ 126))

/-- Rust `String::insert` at a character index (panics — here `none` at the
call site — when the index exceeds the length). -/
def string_insert (s : List Char) (i : Nat) (c : Char) : List Char :=
  s.take i ++ c :: s.drop i

/-- Rust `String::remove` at a character index. -/
def string_remove (s : List Char) (i : Nat) : List Char :=
  s.take i ++ s.drop (i + 1)

/-- `Editor::handle_insert_char`: the `assert!` on the character class and
the `todo!` on an over-width line are modelled as `none`; otherwise inserts
at the cursor and performs `move_cursor_right` on the updated editor. -/
def handle_insert_char (e : Editor) (c : Char) : Option (Editor × List TermAction) :=
  if ¬ (is_ascii_alphanumeric c ∨ is_ascii_punctuation c) then none
  else
    let current_row_index := get_cursor_row_index e.text_buffer e.cursor_index
    match get_content_of_row e.text_buffer current_row_index with
    | none => none
    | some current_row_content =>
      if current_row_content.length ≥ e.width then none
      else if e.cursor_index ≤ e.text_buffer.length then
        move_cursor_right { e with text_buffer := string_insert e.text_buffer e.cursor_index c }
      else none

/-- `Editor::handle_normal_char`: only `'i'` is handled (enter Insert mode);
everything else is a `todo!`. -/
def handle_normal_char (e : Editor) (c : Char) : Option Editor :=
  if c = 'i' then some { e with mode := EditorMode.Insert } else none

/-- `Editor::delete_char`: no-op on an empty buffer and at or after the last
valid index; otherwise removes the character at the cursor, never moving the
cursor. -/
def delete_char (e : Editor) : Editor :=
  if e.text_buffer.length = 0 then e
  else if e.cursor_index ≥ e.text_buffer.length - 1 then e
  else { e with text_buffer := string_remove e.text_buffer e.cursor_index }

/-- Derived cursor row of an editor state (`self.get_cursor_row_index()`). -/
def cursor_row (e : Editor) : Nat :=
  get_cursor_row_index e.text_buffer e.cursor_index

/-- Derived cursor column of an editor state (`self.get_cursor_col_index()`). -/
def cursor_col (e : Editor) : Nat :=
  get_cursor_col_index e.text_buffer e.cursor_index

/-- Characters consumed by all derived lines strictly before row `r`
(each line plus its line-break marker): the quantity of spec §8. -/
def sum_lines_before (buf : List Char) (r : Nat) : Nat :=
  (((get_lines buf).take r).map (fun l => l.length + 1)).sum

/-- Length of derived line `r` (0 if there is no such line). -/
def row_len_at (buf : List Char) (r : Nat) : Nat :=
  ((get_lines buf)[r]?.getD []).length

/-- Net number of terminal rows a terminal action moves the cursor by. -/
def termRowDelta : TermAction → Int
  | TermAction.moveDown n => n
  | TermAction.moveUp n => -(n : Int)
  | TermAction.moveToNextLine n => n
  | TermAction.moveToPreviousLine n => -(n : Int)
  | _ => 0

/-- Net number of terminal rows a batch of terminal actions moves the
cursor by. -/
def actionsRowDelta (acts : List TermAction) : Int :=
  (acts.map termRowDelta).sum

/-! ## Basic lemmas about the line splitter and the derived coordinates -/

theorem row_eq_count (buf : List Char) (o : Nat) :
    get_cursor_row_index buf o = (buf.take o).count '\n' := by
  induction buf generalizing o with
  | nil => simp [get_cursor_row_index]
  | cons c rest ih =>
    cases o with
    | zero => simp [get_cursor_row_index]
    | succ k =>
      rw [show get_cursor_row_index (c :: rest) (k + 1) =
            (if c = '\n' then 1 else 0) + get_cursor_row_index rest k by
          simp [get_cursor_row_index]]
      rw [ih k, List.take_succ_cons, List.count_cons]
      by_cases h : c = '\n' <;> simp [h] <;> omega

theorem stripCR_eq_self (l : List Char) (h : '\r' ∉ l) : stripCR l = l := by
  induction l with
  | nil => rfl
  | cons c rest ih =>
    simp only [List.mem_cons, not_or] at h
    have hc : ¬ c = '\r' := fun hh => h.1 hh.symm
    by_cases hr : rest = []
    · subst hr; simp [stripCR, hc]
    · simp [stripCR, hr, ih h.2]

theorem rustLinesGo_append (l : List Char) (hl : '\n' ∉ l) (rest : List Char) :
    ∀ cur, rustLinesGo cur (l ++ '\n' :: rest) =
      stripCR (cur.reverse ++ l) :: rustLinesGo [] rest := by
  induction l with
  | nil => intro cur; simp [rustLinesGo]
  | cons c l' ih =>
    intro cur
    simp only [List.mem_cons, not_or] at hl
    have hc : ¬ c = '\n' := fun hh => hl.1 hh.symm
    rw [List.cons_append,
      show rustLinesGo cur (c :: (l' ++ '\n' :: rest)) =
        rustLinesGo (c :: cur) (l' ++ '\n' :: rest) by simp [rustLinesGo, hc],
      ih hl.2 (c :: cur)]
    simp

theorem rustLines_cons (l : List Char) (hl : '\n' ∉ l) (rest : List Char) :
    rustLines (l ++ '\n' :: rest) = stripCR l :: rustLines rest := by
  simpa [rustLines] using rustLinesGo_append l hl rest []

theorem rustLinesGo_no_nl (s : List Char) (hs : '\n' ∉ s) :
    ∀ cur, rustLinesGo cur s =
      if cur.reverse ++ s = [] then [] else [cur.reverse ++ s] := by
  induction s with
  | nil => intro cur; by_cases h : cur = [] <;> simp [rustLinesGo, h]
  | cons c rest ih =>
    intro cur
    simp only [List.mem_cons, not_or] at hs
    have hc : ¬ c = '\n' := fun hh => hs.1 hh.symm
    rw [show rustLinesGo cur (c :: rest) = rustLinesGo (c :: cur) rest by
        simp [rustLinesGo, hc],
      ih hs.2 (c :: cur)]
    simp

theorem rustLines_no_nl (s : List Char) (hs : '\n' ∉ s) (hne : s ≠ []) :
    rustLines s = [s] := by
  simpa [rustLines, hne] using rustLinesGo_no_nl s hs []

theorem not_ends_with_nl_of_no_nl (s : List Char) (hs : '\n' ∉ s) :
    ¬ ends_with_nl s := by
  intro h
  exact hs (List.mem_of_mem_getLast? (by simp [ends_with_nl] at h ⊢; exact h))

theorem get_lines_no_nl (buf : List Char) (h : '\n' ∉ buf) :
    get_lines buf = [buf] := by
  by_cases hb : buf = []
  · subst hb; rfl
  · have hlen : ¬ buf.length = 0 := by simpa [List.length_eq_zero] using hb
    rw [get_lines, if_neg hlen, if_neg (not_ends_with_nl_of_no_nl buf h),
      rustLines_no_nl buf h hb]

theorem ends_with_nl_append (l : List Char) (rest : List Char) :
    ends_with_nl (l ++ '\n' :: rest) ↔ (rest = [] ∨ ends_with_nl rest) := by
  unfold ends_with_nl
  rw [List.getLast?_append_of_ne_nil l (by simp)]
  cases rest with
  | nil => simp
  | cons c r =>
    rw [show ('\n' :: c :: r) = ['\n'] ++ (c :: r) by simp,
      List.getLast?_append_of_ne_nil ['\n'] (by simp)]
    simp

theorem get_lines_cons (l : List Char) (hl : '\n' ∉ l) (hr : '\r' ∉ l)
    (rest : List Char) (hrest : rest ≠ []) :
    get_lines (l ++ '\n' :: rest) = l :: get_lines rest := by
  have hlen : ¬ (l ++ '\n' :: rest).length = 0 := by simp
  have hlenr : ¬ rest.length = 0 := by simpa [List.length_eq_zero] using hrest
  by_cases h2 : ends_with_nl rest
  · rw [get_lines, if_neg hlen, if_pos ((ends_with_nl_append l rest).mpr (Or.inr h2)),
      rustLines_cons l hl rest, stripCR_eq_self l hr,
      get_lines, if_neg hlenr, if_pos h2]
    simp
  · rw [get_lines, if_neg hlen,
      if_neg (fun hh => ((ends_with_nl_append l rest).mp hh).elim hrest h2),
      rustLines_cons l hl rest, stripCR_eq_self l hr,
      get_lines, if_neg hlenr, if_neg h2]

theorem get_lines_cons_nil (l : List Char) (hl : '\n' ∉ l) (hr : '\r' ∉ l) :
    get_lines (l ++ ['\n']) = [l, []] := by
  have hlen : ¬ (l ++ ['\n']).length = 0 := by simp
  rw [get_lines, if_neg hlen, if_pos ((ends_with_nl_append l []).mpr (Or.inl rfl)),
    show (l ++ ['\n']) = (l ++ '\n' :: ([] : List Char)) from rfl,
    rustLines_cons l hl [], stripCR_eq_self l hr]
  rfl

theorem rustLinesGo_ne_nil (s : List Char) :
    ∀ cur, s ≠ [] ∨ cur ≠ [] → rustLinesGo cur s ≠ [] := by
  induction s with
  | nil =>
    intro cur h
    simp only [rustLinesGo, if_neg (h.resolve_left (by simp))]
    simp
  | cons c rest ih =>
    intro cur _
    simp only [rustLinesGo]
    by_cases hc : c = '\n'
    · simp [hc]
    · simp only [if_neg hc]
      exact ih (c :: cur) (Or.inr (by simp))

theorem rustLines_ne_nil (buf : List Char) (h : buf ≠ []) : rustLines buf ≠ [] :=
  rustLinesGo_ne_nil buf [] (Or.inl h)

theorem get_lines_ne_nil (buf : List Char) : get_lines buf ≠ [] := by
  by_cases hb : buf.length = 0
  · simp [get_lines, hb]
  · simp only [get_lines, if_neg hb]
    have hne : buf ≠ [] := by simpa [List.length_eq_zero] using hb
    by_cases h : ends_with_nl buf
    · simp [h]
    · simpa only [if_neg h] using rustLines_ne_nil buf hne

theorem rustLinesGo_length (s : List Char) (hs : s ≠ []) :
    ∀ cur, (rustLinesGo cur s).length =
      s.count '\n' + (if s.getLast? = some '\n' then 0 else 1) := by
  induction s with
  | nil => exact absurd rfl hs
  | cons c rest ih =>
    intro cur
    by_cases hr : rest = []
    · subst hr
      by_cases hc : c = '\n' <;>
        simp [rustLinesGo, rustLinesGo_ne_nil, hc, List.count_cons]
    · have hlast : (c :: rest).getLast? = rest.getLast? :=
        List.getLast?_append_of_ne_nil [c] hr
      rw [hlast]
      by_cases hc : c = '\n'
      · subst hc
        rw [show rustLinesGo cur ('\n' :: rest) =
              stripCR cur.reverse :: rustLinesGo [] rest by simp [rustLinesGo],
          List.length_cons, ih hr [], List.count_cons]
        by_cases h2 : rest.getLast? = some '\n' <;> simp [h2]
      · rw [show rustLinesGo cur (c :: rest) = rustLinesGo (c :: cur) rest by
            simp [rustLinesGo, hc],
          ih hr (c :: cur), List.count_cons]
        simp [hc]

theorem get_lines_length (buf : List Char) (h : buf ≠ []) :
    (get_lines buf).length = buf.count '\n' + 1 := by
  have hlen : ¬ buf.length = 0 := by simpa [List.length_eq_zero] using h
  by_cases he : ends_with_nl buf
  · rw [get_lines, if_neg hlen, if_pos he]
    have := rustLinesGo_length buf h []
    rw [show buf.getLast? = some '\n' from he] at this
    simp only [rustLines]
    simp [this]
  · rw [get_lines, if_neg hlen, if_neg he]
    have := rustLinesGo_length buf h []
    rw [if_neg (by simpa [ends_with_nl] using he)] at this
    simpa [rustLines] using this

theorem row_le_count (buf : List Char) (o : Nat) :
    get_cursor_row_index buf o ≤ buf.count '\n' := by
  rw [row_eq_count]
  exact (List.take_sublist o buf).count_le '\n'

theorem row_lt_get_lines_length (buf : List Char) (o : Nat) (h : buf ≠ []) :
    get_cursor_row_index buf o < (get_lines buf).length := by
  rw [get_lines_length buf h]
  exact Nat.lt_succ_of_le (row_le_count buf o)

/-- The `get_content_of_row` lookup at the derived cursor row always
succeeds (for any buffer and any cursor position whatsoever). -/
theorem row_lookup_isSome (buf : List Char) (cursor : Nat) :
    (get_content_of_row buf (get_cursor_row_index buf cursor)).isSome := by
  by_cases hb : buf.length = 0
  · simp [get_content_of_row, hb]
  · rw [get_content_of_row, if_neg hb]
    have hne : buf ≠ [] := by simpa [List.length_eq_zero] using hb
    rw [List.getElem?_eq_getElem (row_lt_get_lines_length buf cursor hne)]
    rfl

theorem row_lookup_lt_isSome (buf : List Char) (r : Nat)
    (h : r < (get_lines buf).length) :
    get_content_of_row buf r = some ((get_lines buf)[r]?.getD []) := by
  by_cases hb : buf.length = 0
  · have : buf = [] := by simpa [List.length_eq_zero] using hb
    subst this
    have : r = 0 := by simpa [get_lines] using h
    subst this
    simp [get_content_of_row, get_lines]
  · rw [get_content_of_row, if_neg hb, List.getElem?_eq_getElem h]
    simp

/-! ## Shifting and peeling lemmas for the column computation -/

theorem colGo_shift (L : List (List Char)) :
    ∀ cursor chars d,
      get_cursor_col_index_go (cursor + d) (chars + d) L =
        get_cursor_col_index_go cursor chars L := by
  induction L with
  | nil => intro cursor chars d; rfl
  | cons line rest ih =>
    intro cursor chars d
    by_cases h : cursor ≤ chars + line.length
    · rw [get_cursor_col_index_go, if_pos (by omega),
        get_cursor_col_index_go, if_pos h]
      omega
    · rw [get_cursor_col_index_go, if_neg (by omega),
        get_cursor_col_index_go, if_neg h,
        show chars + d + line.length + 1 = (chars + line.length + 1) + d by omega,
        ih cursor (chars + line.length + 1) d]

theorem col_no_nl (buf : List Char) (h : '\n' ∉ buf) (o : Nat)
    (ho : o ≤ buf.length) : get_cursor_col_index buf o = o := by
  by_cases hb : buf = []
  · subst hb
    simp only [List.length_nil, Nat.le_zero] at ho
    simp [ho, get_cursor_col_index, rustLines, rustLinesGo, get_cursor_col_index_go]
  · rw [get_cursor_col_index, rustLines_no_nl buf h hb,
      get_cursor_col_index_go, if_pos (by omega)]
    omega

theorem col_append_le (l : List Char) (hl : '\n' ∉ l) (hr : '\r' ∉ l)
    (rest : List Char) (o : Nat) (ho : o ≤ l.length) :
    get_cursor_col_index (l ++ '\n' :: rest) o = o := by
  rw [get_cursor_col_index, rustLines_cons l hl rest, stripCR_eq_self l hr,
    get_cursor_col_index_go, if_pos (by omega)]
  omega

theorem colGo_drop (L : List (List Char)) (cursor chars d : Nat) (h : d ≤ cursor) :
    get_cursor_col_index_go cursor (chars + d) L =
      get_cursor_col_index_go (cursor - d) chars L := by
  conv_lhs => rw [show cursor = (cursor - d) + d by omega]
  exact colGo_shift L (cursor - d) chars d

theorem col_append_gt (l : List Char) (hl : '\n' ∉ l) (hr : '\r' ∉ l)
    (rest : List Char) (o : Nat) (ho : l.length < o) :
    get_cursor_col_index (l ++ '\n' :: rest) o =
      get_cursor_col_index rest (o - (l.length + 1)) := by
  rw [get_cursor_col_index, rustLines_cons l hl rest, stripCR_eq_self l hr,
    get_cursor_col_index_go, if_neg (by omega),
    show (0 : Nat) + l.length + 1 = 0 + (l.length + 1) by omega,
    colGo_drop (rustLines rest) o 0 (l.length + 1) (by omega)]
  rfl

theorem row_append_le (l : List Char) (hl : '\n' ∉ l) (rest : List Char)
    (o : Nat) (ho : o ≤ l.length) :
    get_cursor_row_index (l ++ '\n' :: rest) o = 0 := by
  rw [row_eq_count, List.take_append_eq_append_take,
    show o - l.length = 0 by omega]
  simp only [List.take_zero, List.append_nil]
  exact List.count_eq_zero.mpr (fun hmem => hl ((List.take_subset o l) hmem))

theorem row_append_gt (l : List Char) (hl : '\n' ∉ l) (rest : List Char)
    (o : Nat) (ho : l.length < o) :
    get_cursor_row_index (l ++ '\n' :: rest) o =
      get_cursor_row_index rest (o - (l.length + 1)) + 1 := by
  rw [row_eq_count, row_eq_count, List.take_append_eq_append_take,
    List.take_of_length_le (by omega), List.count_append,
    List.count_eq_zero.mpr hl,
    show o - l.length = (o - (l.length + 1)) + 1 by omega,
    List.take_succ_cons, List.count_cons]
  simp

/-! ## Splitting a buffer at its first line break -/

theorem buf_split (buf : List Char) (h : '\n' ∈ buf) :
    ∃ l rest, buf = l ++ '\n' :: rest ∧ '\n' ∉ l ∧ rest.length < buf.length := by
  induction buf with
  | nil => cases h
  | cons c bs ih =>
    by_cases hc : c = '\n'
    · subst hc
      exact ⟨[], bs, rfl, by simp, by simp⟩
    · have hmem : '\n' ∈ bs := by
        rcases List.mem_cons.mp h with h1 | h1
        · exact absurd h1.symm hc
        · exact h1
      obtain ⟨l, rest, heq, hnl, hlt⟩ := ih hmem
      refine ⟨c :: l, rest, by rw [heq]; rfl, ?_, ?_⟩
      · simp only [List.mem_cons, not_or]
        exact ⟨fun hh => hc hh.symm, hnl⟩
      · simp only [List.length_cons]
        omega

/-- Induction on a buffer by peeling its first line. -/
theorem buf_ind (P : List Char → Prop)
    (base : ∀ buf, '\n' ∉ buf → P buf)
    (step : ∀ l rest, '\n' ∉ l → P rest → P (l ++ '\n' :: rest)) :
    ∀ buf, P buf := by
  intro buf
  generalize hlen : buf.length = n
  induction n using Nat.strong_induction_on generalizing buf with
  | _ n ihn =>
    by_cases h : '\n' ∈ buf
    · obtain ⟨l, rest, heq, hnl, hlt⟩ := buf_split buf h
      subst heq
      exact step l rest hnl (ihn rest.length (by omega) rest rfl)
    · exact base buf h

theorem row_no_nl (buf : List Char) (h : '\n' ∉ buf) (o : Nat) :
    get_cursor_row_index buf o = 0 := by
  rw [row_eq_count]
  exact List.count_eq_zero.mpr (fun hmem => h ((List.take_subset o buf) hmem))

theorem sum_lines_before_zero (buf : List Char) : sum_lines_before buf 0 = 0 := by
  simp [sum_lines_before]

theorem sum_lines_before_cons (l : List Char) (hl : '\n' ∉ l) (hr : '\r' ∉ l)
    (rest : List Char) (hrest : rest ≠ []) (r : Nat) :
    sum_lines_before (l ++ '\n' :: rest) (r + 1) =
      (l.length + 1) + sum_lines_before rest r := by
  simp [sum_lines_before, get_lines_cons l hl hr rest hrest]

theorem row_len_at_cons_zero (l : List Char) (hl : '\n' ∉ l) (hr : '\r' ∉ l)
    (rest : List Char) : row_len_at (l ++ '\n' :: rest) 0 = l.length := by
  by_cases hrest : rest = []
  · subst hrest
    simp [row_len_at, get_lines_cons_nil l hl hr]
  · simp [row_len_at, get_lines_cons l hl hr rest hrest]

theorem row_len_at_cons_succ (l : List Char) (hl : '\n' ∉ l) (hr : '\r' ∉ l)
    (rest : List Char) (hrest : rest ≠ []) (r : Nat) :
    row_len_at (l ++ '\n' :: rest) (r + 1) = row_len_at rest r := by
  simp [row_len_at, get_lines_cons l hl hr rest hrest]

/-- Offset/row-column consistency together with the column bound and the
row bound, for carriage-return-free buffers, by induction on the first
line of the buffer. -/
theorem consistency_main : ∀ buf : List Char, '\r' ∉ buf → ∀ o, o ≤ buf.length →
    get_cursor_col_index buf o + sum_lines_before buf (get_cursor_row_index buf o) = o ∧
    get_cursor_col_index buf o ≤ row_len_at buf (get_cursor_row_index buf o) ∧
    get_cursor_row_index buf o < (get_lines buf).length := by
  refine buf_ind (fun buf => '\r' ∉ buf → ∀ o, o ≤ buf.length →
    get_cursor_col_index buf o + sum_lines_before buf (get_cursor_row_index buf o) = o ∧
    get_cursor_col_index buf o ≤ row_len_at buf (get_cursor_row_index buf o) ∧
    get_cursor_row_index buf o < (get_lines buf).length) ?_ ?_
  · intro buf hnl hcr o ho
    rw [row_no_nl buf hnl o, col_no_nl buf hnl o ho, sum_lines_before_zero]
    refine ⟨by omega, ?_, ?_⟩
    · simp [row_len_at, get_lines_no_nl buf hnl]
      exact ho
    · rw [get_lines_no_nl buf hnl]
      simp
  · intro l rest hl ih hcr o ho
    have hcrl : '\r' ∉ l := fun hh => hcr (List.mem_append.mpr (Or.inl hh))
    have hcrr : '\r' ∉ rest := fun hh =>
      hcr (List.mem_append.mpr (Or.inr (List.mem_cons.mpr (Or.inr hh))))
    rw [List.length_append, List.length_cons] at ho
    by_cases hole : o ≤ l.length
    · rw [row_append_le l hl rest o hole, col_append_le l hl hcrl rest o hole,
        sum_lines_before_zero, row_len_at_cons_zero l hl hcrl rest]
      exact ⟨by omega, hole,
        List.length_pos.mpr (get_lines_ne_nil (l ++ '\n' :: rest))⟩
    · have holt : l.length < o := by omega
      rw [row_append_gt l hl rest o holt, col_append_gt l hl hcrl rest o holt]
      by_cases hrest : rest = []
      · subst hrest
        have ho' : o = l.length + 1 := by
          simp only [List.length_nil] at ho
          omega
        have hrow0 : get_cursor_row_index [] (o - (l.length + 1)) = 0 := rfl
        have hcol0 : get_cursor_col_index [] (o - (l.length + 1)) = 0 := rfl
        rw [hrow0, hcol0]
        refine ⟨?_, ?_, ?_⟩
        · rw [show (0 : Nat) + 1 = 1 by rfl]
          simp [sum_lines_before, get_lines_cons_nil l hl hcrl]
          omega
        · rw [show (0 : Nat) + 1 = 1 by rfl,
            show row_len_at (l ++ '\n' :: []) 1 = 0 by
              simp [row_len_at, get_lines_cons_nil l hl hcrl]]
        · rw [show (l ++ '\n' :: []) = (l ++ ['\n']) from rfl, get_lines_cons_nil l hl hcrl]
          simp
      · have ho'le : o - (l.length + 1) ≤ rest.length := by omega
        obtain ⟨ih1, ih2, ih3⟩ := ih hcrr (o - (l.length + 1)) ho'le
        refine ⟨?_, ?_, ?_⟩
        · rw [sum_lines_before_cons l hl hcrl rest hrest]
          omega
        · rw [row_len_at_cons_succ l hl hcrl rest hrest]
          exact ih2
        · rw [get_lines_cons l hl hcrl rest hrest, List.length_cons]
          omega

/-- Conversely: the offset `sum_lines_before buf r + c` (start of line `r`
plus a column `c` within line `r`) is a valid cursor offset, and the derived
row and column there are exactly `r` and `c` — for carriage-return-free
buffers. -/
theorem locate_main : ∀ buf : List Char, '\r' ∉ buf → ∀ r c,
    r < (get_lines buf).length → c ≤ row_len_at buf r →
    sum_lines_before buf r + c ≤ buf.length ∧
    get_cursor_row_index buf (sum_lines_before buf r + c) = r ∧
    get_cursor_col_index buf (sum_lines_before buf r + c) = c := by
  refine buf_ind (fun buf => '\r' ∉ buf → ∀ r c,
    r < (get_lines buf).length → c ≤ row_len_at buf r →
    sum_lines_before buf r + c ≤ buf.length ∧
    get_cursor_row_index buf (sum_lines_before buf r + c) = r ∧
    get_cursor_col_index buf (sum_lines_before buf r + c) = c) ?_ ?_
  · intro buf hnl hcr r c hrlt hcle
    rw [get_lines_no_nl buf hnl] at hrlt
    simp only [List.length_singleton] at hrlt
    have hr0 : r = 0 := by omega
    subst hr0
    rw [row_len_at, get_lines_no_nl buf hnl] at hcle
    simp only [List.getElem?_cons_zero, Option.getD_some] at hcle
    rw [sum_lines_before_zero, Nat.zero_add]
    exact ⟨by omega, row_no_nl buf hnl c, col_no_nl buf hnl c (by omega)⟩
  · intro l rest hl ih hcr r c hrlt hcle
    have hcrl : '\r' ∉ l := fun hh => hcr (List.mem_append.mpr (Or.inl hh))
    have hcrr : '\r' ∉ rest := fun hh =>
      hcr (List.mem_append.mpr (Or.inr (List.mem_cons.mpr (Or.inr hh))))
    cases r with
    | zero =>
      rw [row_len_at_cons_zero l hl hcrl rest] at hcle
      rw [sum_lines_before_zero, Nat.zero_add]
      refine ⟨by simp; omega, row_append_le l hl rest c hcle,
        col_append_le l hl hcrl rest c hcle⟩
    | succ r' =>
      by_cases hrest : rest = []
      · subst hrest
        rw [show (l ++ '\n' :: []) = (l ++ ['\n']) from rfl,
          get_lines_cons_nil l hl hcrl] at hrlt
        have hr'0 : r' = 0 := by
          have h2 : r' + 1 < 2 := by simpa using hrlt
          omega
        subst hr'0
        rw [show row_len_at (l ++ '\n' :: []) 1 = 0 by
          simp [row_len_at, get_lines_cons_nil l hl hcrl]] at hcle
        have hc0 : c = 0 := by omega
        subst hc0
        have hsum : sum_lines_before (l ++ '\n' :: []) 1 = l.length + 1 := by
          simp [sum_lines_before, get_lines_cons_nil l hl hcrl]
        rw [hsum]
        refine ⟨by simp, ?_, ?_⟩
        · rw [show l.length + 1 + 0 = l.length + 1 by rfl,
            row_append_gt l hl [] (l.length + 1) (by omega)]
          rfl
        · rw [show l.length + 1 + 0 = l.length + 1 by rfl,
            col_append_gt l hl hcrl [] (l.length + 1) (by omega)]
          rfl
      · rw [get_lines_cons l hl hcrl rest hrest, List.length_cons] at hrlt
        rw [row_len_at_cons_succ l hl hcrl rest hrest] at hcle
        obtain ⟨b1, b2, b3⟩ := ih hcrr r' c (by omega) hcle
        rw [sum_lines_before_cons l hl hcrl rest hrest]
        refine ⟨by simp; omega, ?_, ?_⟩
        · rw [show l.length + 1 + sum_lines_before rest r' + c =
              (sum_lines_before rest r' + c) + (l.length + 1) by omega]
          rw [row_append_gt l hl rest _ (by omega)]
          rw [show sum_lines_before rest r' + c + (l.length + 1) - (l.length + 1) =
            sum_lines_before rest r' + c by omega]
          omega
        · rw [show l.length + 1 + sum_lines_before rest r' + c =
              (sum_lines_before rest r' + c) + (l.length + 1) by omega]
          rw [col_append_gt l hl hcrl rest _ (by omega)]
          rw [show sum_lines_before rest r' + c + (l.length + 1) - (l.length + 1) =
            sum_lines_before rest r' + c by omega]
          exact b3

theorem sum_step (buf : List Char) (r : Nat) (h : r < (get_lines buf).length) :
    sum_lines_before buf (r + 1) =
      sum_lines_before buf r + (row_len_at buf r + 1) := by
  unfold sum_lines_before row_len_at
  rw [List.take_succ, List.getElem?_eq_getElem h, List.map_append, List.sum_append]
  simp only [Option.toList_some, List.map_cons, List.map_nil, List.sum_cons,
    List.sum_nil, Option.getD_some]
  omega

/-- Full behaviour of `move_cursor_down` on a carriage-return-free buffer
when the cursor is not on the last row: the operation succeeds, the cursor
moves to the next row at the clamped column, the viewport scrolls exactly
when `row - top_line ≥ height - 2`, and the terminal cursor row moves only
when no scroll happened. -/
theorem move_down_spec (e : Editor) (hcr : '\r' ∉ e.text_buffer)
    (hc : e.cursor_index ≤ e.text_buffer.length)
    (hnb : cursor_row e + 1 < get_num_rows e.text_buffer) :
    ∃ e' acts, move_cursor_down e = some (e', acts) ∧
      e'.text_buffer = e.text_buffer ∧ e'.width = e.width ∧
      e'.height = e.height ∧ e'.mode = e.mode ∧
      e'.top_line = (if e.height - 2 ≤ cursor_row e - e.top_line
        then e.top_line + 1 else e.top_line) ∧
      cursor_row e' = cursor_row e + 1 ∧
      cursor_col e' = min (cursor_col e) (row_len_at e.text_buffer (cursor_row e + 1)) ∧
      e'.cursor_index ≤ e.text_buffer.length ∧
      actionsRowDelta acts = (if e.height - 2 ≤ cursor_row e - e.top_line
        then 0 else 1) := by
  simp only [cursor_row, cursor_col] at hnb ⊢
  have hbne : e.text_buffer ≠ [] := by
    intro hnil
    rw [show get_cursor_row_index e.text_buffer e.cursor_index = 0 by rw [hnil]; rfl,
      get_num_rows, hnil] at hnb
    simp at hnb
  have hlen0 : ¬ e.text_buffer.length = 0 := by
    simpa [List.length_eq_zero] using hbne
  rw [get_num_rows, if_neg hlen0] at hnb
  obtain ⟨inv1, inv2, inv3⟩ := consistency_main e.text_buffer hcr e.cursor_index hc
  have h1 : get_content_of_row e.text_buffer
        (get_cursor_row_index e.text_buffer e.cursor_index) =
      some ((get_lines e.text_buffer)[get_cursor_row_index e.text_buffer e.cursor_index]?.getD []) :=
    row_lookup_lt_isSome _ _ inv3
  have h2 : get_content_of_row e.text_buffer
        (get_cursor_row_index e.text_buffer e.cursor_index + 1) =
      some ((get_lines e.text_buffer)[get_cursor_row_index e.text_buffer e.cursor_index + 1]?.getD []) :=
    row_lookup_lt_isSome _ _ hnb
  have hrl : ((get_lines e.text_buffer)[get_cursor_row_index e.text_buffer e.cursor_index]?.getD []).length
      = row_len_at e.text_buffer (get_cursor_row_index e.text_buffer e.cursor_index) := rfl
  have hrl2 : ((get_lines e.text_buffer)[get_cursor_row_index e.text_buffer e.cursor_index + 1]?.getD []).length
      = row_len_at e.text_buffer (get_cursor_row_index e.text_buffer e.cursor_index + 1) := rfl
  have hstep := sum_step e.text_buffer (get_cursor_row_index e.text_buffer e.cursor_index) inv3
  have hguard : get_cursor_col_index e.text_buffer e.cursor_index ≤
      ((get_lines e.text_buffer)[get_cursor_row_index e.text_buffer e.cursor_index]?.getD []).length := by
    rw [hrl]; exact inv2
  have hnbne : ¬ get_num_rows e.text_buffer =
      get_cursor_row_index e.text_buffer e.cursor_index + 1 := by
    rw [get_num_rows, if_neg hlen0]; omega
  by_cases hclamp : ((get_lines e.text_buffer)[get_cursor_row_index e.text_buffer e.cursor_index + 1]?.getD []).length
      < get_cursor_col_index e.text_buffer e.cursor_index + 1
  · -- clamped: land at the end of the next line
    obtain ⟨lm1, lm2, lm3⟩ := locate_main e.text_buffer hcr
      (get_cursor_row_index e.text_buffer e.cursor_index + 1)
      (row_len_at e.text_buffer (get_cursor_row_index e.text_buffer e.cursor_index + 1))
      hnb (le_refl _)
    have hval : e.cursor_index +
        (((get_lines e.text_buffer)[get_cursor_row_index e.text_buffer e.cursor_index]?.getD []).length
          - get_cursor_col_index e.text_buffer e.cursor_index) + 1 +
        ((get_lines e.text_buffer)[get_cursor_row_index e.text_buffer e.cursor_index + 1]?.getD []).length =
        sum_lines_before e.text_buffer (get_cursor_row_index e.text_buffer e.cursor_index + 1) +
          row_len_at e.text_buffer (get_cursor_row_index e.text_buffer e.cursor_index + 1) := by
      rw [hrl, hrl2]
      omega
    have hcc : row_len_at e.text_buffer (get_cursor_row_index e.text_buffer e.cursor_index + 1) ≤
        get_cursor_col_index e.text_buffer e.cursor_index := by
      rw [← hrl2]
      omega
    by_cases hs : e.height - 2 ≤ get_cursor_row_index e.text_buffer e.cursor_index - e.top_line
    · obtain ⟨⟨e', acts⟩, heq⟩ : ∃ p, move_cursor_down e = some p := ⟨_, by
        simp only [move_cursor_down, h1, h2, if_neg hnbne, if_pos hclamp,
          if_pos hguard, if_pos (decide_eq_true hs)]
        rfl⟩
      have heq2 := heq
      simp only [move_cursor_down, h1, h2, if_neg hnbne, if_pos hclamp,
        if_pos hguard, if_pos (decide_eq_true hs), Option.some.injEq,
        Prod.mk.injEq] at heq2
      obtain ⟨he, ha⟩ := heq2
      subst he
      subst ha
      refine ⟨_, _, heq, rfl, rfl, rfl, rfl, ?_, ?_, ?_, ?_, ?_⟩
      · simp [hs]
      · simp only [cursor_row]
        rw [hval]
        exact lm2
      · simp only [cursor_col]
        rw [hval, lm3]
        omega
      · simp only [hval]
        exact lm1
      · simp [actionsRowDelta, termRowDelta, hs]
    · have hdec : ¬ (decide (e.height - 2 ≤
          get_cursor_row_index e.text_buffer e.cursor_index - e.top_line) = true) := by
        simp only [decide_eq_true_eq]
        exact hs
      obtain ⟨⟨e', acts⟩, heq⟩ : ∃ p, move_cursor_down e = some p := ⟨_, by
        simp only [move_cursor_down, h1, h2, if_neg hnbne, if_pos hclamp,
          if_pos hguard, if_neg hdec]
        rfl⟩
      have heq2 := heq
      simp only [move_cursor_down, h1, h2, if_neg hnbne, if_pos hclamp,
        if_pos hguard, if_neg hdec,
        Option.some.injEq, Prod.mk.injEq] at heq2
      obtain ⟨he, ha⟩ := heq2
      subst he
      subst ha
      refine ⟨_, _, heq, rfl, rfl, rfl, rfl, ?_, ?_, ?_, ?_, ?_⟩
      · simp [hs]
      · simp only [cursor_row]
        rw [hval]
        exact lm2
      · simp only [cursor_col]
        rw [hval, lm3]
        omega
      · simp only [hval]
        exact lm1
      · by_cases hn0 : ((get_lines e.text_buffer)[get_cursor_row_index e.text_buffer e.cursor_index + 1]?.getD []).length > 0 <;>
          simp [hs, hn0, actionsRowDelta, termRowDelta]
  · -- not clamped: keep the column on the next line
    have hcle : get_cursor_col_index e.text_buffer e.cursor_index ≤
        row_len_at e.text_buffer (get_cursor_row_index e.text_buffer e.cursor_index + 1) := by
      rw [← hrl2]
      omega
    obtain ⟨lm1, lm2, lm3⟩ := locate_main e.text_buffer hcr
      (get_cursor_row_index e.text_buffer e.cursor_index + 1)
      (get_cursor_col_index e.text_buffer e.cursor_index) hnb hcle
    have hval : e.cursor_index +
        (((get_lines e.text_buffer)[get_cursor_row_index e.text_buffer e.cursor_index]?.getD []).length
          - get_cursor_col_index e.text_buffer e.cursor_index) + 1 +
        get_cursor_col_index e.text_buffer e.cursor_index =
        sum_lines_before e.text_buffer (get_cursor_row_index e.text_buffer e.cursor_index + 1) +
          get_cursor_col_index e.text_buffer e.cursor_index := by
      rw [hrl]
      omega
    by_cases hs : e.height - 2 ≤ get_cursor_row_index e.text_buffer e.cursor_index - e.top_line
    · obtain ⟨⟨e', acts⟩, heq⟩ : ∃ p, move_cursor_down e = some p := ⟨_, by
        simp only [move_cursor_down, h1, h2, if_neg hnbne, if_neg hclamp,
          if_pos hguard, if_pos (decide_eq_true hs)]
        rfl⟩
      have heq2 := heq
      simp only [move_cursor_down, h1, h2, if_neg hnbne, if_neg hclamp,
        if_pos hguard, if_pos (decide_eq_true hs), Option.some.injEq,
        Prod.mk.injEq] at heq2
      obtain ⟨he, ha⟩ := heq2
      subst he
      subst ha
      refine ⟨_, _, heq, rfl, rfl, rfl, rfl, ?_, ?_, ?_, ?_, ?_⟩
      · simp [hs]
      · simp only [cursor_row]
        rw [hval]
        exact lm2
      · simp only [cursor_col]
        rw [hval, lm3]
        omega
      · simp only [hval]
        exact lm1
      · simp [actionsRowDelta, termRowDelta, hs]
    · have hdec : ¬ (decide (e.height - 2 ≤
          get_cursor_row_index e.text_buffer e.cursor_index - e.top_line) = true) := by
        simp only [decide_eq_true_eq]
        exact hs
      obtain ⟨⟨e', acts⟩, heq⟩ : ∃ p, move_cursor_down e = some p := ⟨_, by
        simp only [move_cursor_down, h1, h2, if_neg hnbne, if_neg hclamp,
          if_pos hguard, if_neg hdec]
        rfl⟩
      have heq2 := heq
      simp only [move_cursor_down, h1, h2, if_neg hnbne, if_neg hclamp,
        if_pos hguard, if_neg hdec,
        Option.some.injEq, Prod.mk.injEq] at heq2
      obtain ⟨he, ha⟩ := heq2
      subst he
      subst ha
      refine ⟨_, _, heq, rfl, rfl, rfl, rfl, ?_, ?_, ?_, ?_, ?_⟩
      · simp [hs]
      · simp only [cursor_row]
        rw [hval]
        exact lm2
      · simp only [cursor_col]
        rw [hval, lm3]
        omega
      · simp only [hval]
        exact lm1
      · simp [actionsRowDelta, termRowDelta, hs]

/-- Full behaviour of `move_cursor_up` on a carriage-return-free buffer when
the cursor is not on row 0: the operation succeeds, the cursor moves to the
previous row at the clamped column, the viewport scrolls exactly when
`top_line ≠ 0` and `row - top_line ≤ 0`, and the terminal cursor row moves
only when no scroll happened. -/
theorem move_up_spec (e : Editor) (hcr : '\r' ∉ e.text_buffer)
    (hc : e.cursor_index ≤ e.text_buffer.length)
    (h0 : 0 < cursor_row e) :
    ∃ e' acts, move_cursor_up e = some (e', acts) ∧
      e'.text_buffer = e.text_buffer ∧ e'.width = e.width ∧
      e'.height = e.height ∧ e'.mode = e.mode ∧
      e'.top_line = (if e.top_line ≠ 0 ∧ cursor_row e - e.top_line ≤ 0
        then e.top_line - 1 else e.top_line) ∧
      cursor_row e' = cursor_row e - 1 ∧
      cursor_col e' = min (cursor_col e) (row_len_at e.text_buffer (cursor_row e - 1)) ∧
      e'.cursor_index ≤ e.text_buffer.length ∧
      actionsRowDelta acts = (if e.top_line ≠ 0 ∧ cursor_row e - e.top_line ≤ 0
        then 0 else -1) := by
  simp only [cursor_row, cursor_col] at h0 ⊢
  have hbne : e.text_buffer ≠ [] := by
    intro hnil
    rw [show get_cursor_row_index e.text_buffer e.cursor_index = 0 by rw [hnil]; rfl] at h0
    omega
  have hlen0 : ¬ e.text_buffer.length = 0 := by
    simpa [List.length_eq_zero] using hbne
  obtain ⟨inv1, inv2, inv3⟩ := consistency_main e.text_buffer hcr e.cursor_index hc
  have hprevlt : get_cursor_row_index e.text_buffer e.cursor_index - 1 <
      (get_lines e.text_buffer).length := by omega
  have h1 : get_content_of_row e.text_buffer
        (get_cursor_row_index e.text_buffer e.cursor_index) =
      some ((get_lines e.text_buffer)[get_cursor_row_index e.text_buffer e.cursor_index]?.getD []) :=
    row_lookup_lt_isSome _ _ inv3
  have h2 : get_content_of_row e.text_buffer
        (get_cursor_row_index e.text_buffer e.cursor_index - 1) =
      some ((get_lines e.text_buffer)[get_cursor_row_index e.text_buffer e.cursor_index - 1]?.getD []) :=
    row_lookup_lt_isSome _ _ hprevlt
  have hrl : ((get_lines e.text_buffer)[get_cursor_row_index e.text_buffer e.cursor_index]?.getD []).length
      = row_len_at e.text_buffer (get_cursor_row_index e.text_buffer e.cursor_index) := rfl
  have hrl2 : ((get_lines e.text_buffer)[get_cursor_row_index e.text_buffer e.cursor_index - 1]?.getD []).length
      = row_len_at e.text_buffer (get_cursor_row_index e.text_buffer e.cursor_index - 1) := rfl
  have hstep2 : sum_lines_before e.text_buffer (get_cursor_row_index e.text_buffer e.cursor_index) =
      sum_lines_before e.text_buffer (get_cursor_row_index e.text_buffer e.cursor_index - 1) +
        (row_len_at e.text_buffer (get_cursor_row_index e.text_buffer e.cursor_index - 1) + 1) := by
    have h := sum_step e.text_buffer (get_cursor_row_index e.text_buffer e.cursor_index - 1) hprevlt
    rw [show get_cursor_row_index e.text_buffer e.cursor_index - 1 + 1 =
      get_cursor_row_index e.text_buffer e.cursor_index by omega] at h
    exact h
  have hguard : get_cursor_col_index e.text_buffer e.cursor_index ≤
      ((get_lines e.text_buffer)[get_cursor_row_index e.text_buffer e.cursor_index]?.getD []).length := by
    rw [hrl]; exact inv2
  have h0ne : ¬ get_cursor_row_index e.text_buffer e.cursor_index = 0 := by omega
  by_cases hclamp : ((get_lines e.text_buffer)[get_cursor_row_index e.text_buffer e.cursor_index - 1]?.getD []).length
      < get_cursor_col_index e.text_buffer e.cursor_index + 1
  · -- clamped: land at the end of the previous line
    obtain ⟨lm1, lm2, lm3⟩ := locate_main e.text_buffer hcr
      (get_cursor_row_index e.text_buffer e.cursor_index - 1)
      (row_len_at e.text_buffer (get_cursor_row_index e.text_buffer e.cursor_index - 1))
      hprevlt (le_refl _)
    have hval : e.cursor_index - (get_cursor_col_index e.text_buffer e.cursor_index + 1) =
        sum_lines_before e.text_buffer (get_cursor_row_index e.text_buffer e.cursor_index - 1) +
          row_len_at e.text_buffer (get_cursor_row_index e.text_buffer e.cursor_index - 1) := by
      omega
    have hcc : row_len_at e.text_buffer (get_cursor_row_index e.text_buffer e.cursor_index - 1) ≤
        get_cursor_col_index e.text_buffer e.cursor_index := by
      rw [← hrl2]
      omega
    by_cases hs : e.top_line ≠ 0 ∧ get_cursor_row_index e.text_buffer e.cursor_index - e.top_line ≤ 0
    · obtain ⟨⟨e', acts⟩, heq⟩ : ∃ p, move_cursor_up e = some p := ⟨_, by
        simp only [move_cursor_up, h1, h2, if_neg h0ne, if_pos hclamp,
          if_pos hguard, if_pos (decide_eq_true hs)]
        rfl⟩
      have heq2 := heq
      simp only [move_cursor_up, h1, h2, if_neg h0ne, if_pos hclamp,
        if_pos hguard, if_pos (decide_eq_true hs), Option.some.injEq,
        Prod.mk.injEq] at heq2
      obtain ⟨he, ha⟩ := heq2
      subst he
      subst ha
      refine ⟨_, _, heq, rfl, rfl, rfl, rfl, ?_, ?_, ?_, ?_, ?_⟩
      · simp [hs]
      · simp only [cursor_row]
        rw [hval]
        exact lm2
      · simp only [cursor_col]
        rw [hval, lm3]
        omega
      · simp only [hval]
        exact lm1
      · by_cases hn0 : ((get_lines e.text_buffer)[get_cursor_row_index e.text_buffer e.cursor_index - 1]?.getD []).length > 0 <;>
          simp [hs, hn0, actionsRowDelta, termRowDelta]
    · have hdec : ¬ (decide (e.top_line ≠ 0 ∧
          get_cursor_row_index e.text_buffer e.cursor_index - e.top_line ≤ 0) = true) := by
        simp only [decide_eq_true_eq]
        exact hs
      obtain ⟨⟨e', acts⟩, heq⟩ : ∃ p, move_cursor_up e = some p := ⟨_, by
        simp only [move_cursor_up, h1, h2, if_neg h0ne, if_pos hclamp,
          if_pos hguard, if_neg hdec]
        rfl⟩
      have heq2 := heq
      simp only [move_cursor_up, h1, h2, if_neg h0ne, if_pos hclamp,
        if_pos hguard, if_neg hdec, Option.some.injEq,
        Prod.mk.injEq] at heq2
      obtain ⟨he, ha⟩ := heq2
      subst he
      subst ha
      refine ⟨_, _, heq, rfl, rfl, rfl, rfl, ?_, ?_, ?_, ?_, ?_⟩
      · rw [if_neg hs]
      · simp only [cursor_row]
        rw [hval]
        exact lm2
      · simp only [cursor_col]
        rw [hval, lm3]
        omega
      · simp only [hval]
        exact lm1
      · rw [if_neg hs]
        by_cases hn0 : ((get_lines e.text_buffer)[get_cursor_row_index e.text_buffer e.cursor_index - 1]?.getD []).length > 0 <;>
          simp [hn0, actionsRowDelta, termRowDelta]
  · -- not clamped: keep the column on the previous line
    have hcle : get_cursor_col_index e.text_buffer e.cursor_index ≤
        row_len_at e.text_buffer (get_cursor_row_index e.text_buffer e.cursor_index - 1) := by
      rw [← hrl2]
      omega
    obtain ⟨lm1, lm2, lm3⟩ := locate_main e.text_buffer hcr
      (get_cursor_row_index e.text_buffer e.cursor_index - 1)
      (get_cursor_col_index e.text_buffer e.cursor_index) hprevlt hcle
    have hguard2 : get_cursor_col_index e.text_buffer e.cursor_index ≤
        ((get_lines e.text_buffer)[get_cursor_row_index e.text_buffer e.cursor_index - 1]?.getD []).length := by
      rw [hrl2]
      exact hcle
    have hval : e.cursor_index -
        ((((get_lines e.text_buffer)[get_cursor_row_index e.text_buffer e.cursor_index - 1]?.getD []).length
          - get_cursor_col_index e.text_buffer e.cursor_index) + 1) -
        get_cursor_col_index e.text_buffer e.cursor_index =
        sum_lines_before e.text_buffer (get_cursor_row_index e.text_buffer e.cursor_index - 1) +
          get_cursor_col_index e.text_buffer e.cursor_index := by
      rw [hrl2]
      omega
    by_cases hs : e.top_line ≠ 0 ∧ get_cursor_row_index e.text_buffer e.cursor_index - e.top_line ≤ 0
    · obtain ⟨⟨e', acts⟩, heq⟩ : ∃ p, move_cursor_up e = some p := ⟨_, by
        simp only [move_cursor_up, h1, h2, if_neg h0ne, if_neg hclamp,
          if_pos hguard2, if_pos (decide_eq_true hs)]
        rfl⟩
      have heq2 := heq
      simp only [move_cursor_up, h1, h2, if_neg h0ne, if_neg hclamp,
        if_pos hguard2, if_pos (decide_eq_true hs), Option.some.injEq,
        Prod.mk.injEq] at heq2
      obtain ⟨he, ha⟩ := heq2
      subst he
      subst ha
      refine ⟨_, _, heq, rfl, rfl, rfl, rfl, ?_, ?_, ?_, ?_, ?_⟩
      · simp [hs]
      · simp only [cursor_row]
        rw [hval]
        exact lm2
      · simp only [cursor_col]
        rw [hval, lm3]
        rw [← hrl2] at hcle
        omega
      · simp only [hval]
        exact lm1
      · simp [actionsRowDelta, termRowDelta, hs]
    · have hdec : ¬ (decide (e.top_line ≠ 0 ∧
          get_cursor_row_index e.text_buffer e.cursor_index - e.top_line ≤ 0) = true) := by
        simp only [decide_eq_true_eq]
        exact hs
      obtain ⟨⟨e', acts⟩, heq⟩ : ∃ p, move_cursor_up e = some p := ⟨_, by
        simp only [move_cursor_up, h1, h2, if_neg h0ne, if_neg hclamp,
          if_pos hguard2, if_neg hdec]
        rfl⟩
      have heq2 := heq
      simp only [move_cursor_up, h1, h2, if_neg h0ne, if_neg hclamp,
        if_pos hguard2, if_neg hdec, Option.some.injEq,
        Prod.mk.injEq] at heq2
      obtain ⟨he, ha⟩ := heq2
      subst he
      subst ha
      refine ⟨_, _, heq, rfl, rfl, rfl, rfl, ?_, ?_, ?_, ?_, ?_⟩
      · rw [if_neg hs]
      · simp only [cursor_row]
        rw [hval]
        exact lm2
      · simp only [cursor_col]
        rw [hval, lm3]
        rw [← hrl2] at hcle
        omega
      · simp only [hval]
        exact lm1
      · rw [if_neg hs]
        simp [actionsRowDelta, termRowDelta]

/-! ## Helper lemmas about the remaining operations -/

theorem move_right_succ (e : Editor) (h : e.cursor_index < e.text_buffer.length) :
    ∃ acts, move_cursor_right e =
      some ({ e with cursor_index := e.cursor_index + 1 }, acts) := by
  have hne : ¬ e.cursor_index = e.text_buffer.length := by omega
  obtain ⟨L, hL⟩ := Option.isSome_iff_exists.mp
    (row_lookup_isSome e.text_buffer e.cursor_index)
  by_cases hcol : get_cursor_col_index e.text_buffer e.cursor_index < L.length
  · exact ⟨[TermAction.moveRight 1], by
      simp only [move_cursor_right, if_neg hne, hL, if_pos hcol]⟩
  · exact ⟨[TermAction.moveToNextLine 1], by
      simp only [move_cursor_right, if_neg hne, hL, if_neg hcol]⟩

theorem move_left_pred (e : Editor) (h : 0 < e.cursor_index) :
    ∃ acts, move_cursor_left e =
      some ({ e with cursor_index := e.cursor_index - 1 }, acts) := by
  have hne : ¬ e.cursor_index = 0 := by omega
  obtain ⟨P, hP⟩ := Option.isSome_iff_exists.mp
    (row_lookup_isSome e.text_buffer (e.cursor_index - 1))
  by_cases hcol : get_cursor_col_index e.text_buffer e.cursor_index > 0
  · exact ⟨[TermAction.moveLeft 1], by
      simp only [move_cursor_left, if_neg hne, if_pos hcol]⟩
  · refine ⟨TermAction.moveToPreviousLine 1 ::
      (if P.length > 0 then [TermAction.moveRight P.length] else []), ?_⟩
    simp only [move_cursor_left, if_neg hne, if_neg hcol, hP]

theorem move_right_frame (e e' : Editor) (acts : List TermAction)
    (h : move_cursor_right e = some (e', acts)) :
    e'.top_line = e.top_line ∧ e'.text_buffer = e.text_buffer ∧
    e'.width = e.width ∧ e'.height = e.height ∧ e'.mode = e.mode := by
  by_cases hb : e.cursor_index = e.text_buffer.length
  · simp only [move_cursor_right, if_pos hb, Option.some.injEq, Prod.mk.injEq] at h
    obtain ⟨h1, -⟩ := h
    subst h1
    exact ⟨rfl, rfl, rfl, rfl, rfl⟩
  · obtain ⟨L, hL⟩ := Option.isSome_iff_exists.mp
      (row_lookup_isSome e.text_buffer e.cursor_index)
    simp only [move_cursor_right, if_neg hb, hL] at h
    by_cases hcol : get_cursor_col_index e.text_buffer e.cursor_index < L.length <;>
    · simp only [if_pos, if_neg, hcol, if_true, if_false, Option.some.injEq,
        Prod.mk.injEq, ite_true, ite_false] at h
      obtain ⟨h1, -⟩ := h
      subst h1
      exact ⟨rfl, rfl, rfl, rfl, rfl⟩

theorem move_left_frame (e e' : Editor) (acts : List TermAction)
    (h : move_cursor_left e = some (e', acts)) :
    e'.top_line = e.top_line ∧ e'.text_buffer = e.text_buffer ∧
    e'.width = e.width ∧ e'.height = e.height ∧ e'.mode = e.mode := by
  by_cases hb : e.cursor_index = 0
  · simp only [move_cursor_left, if_pos hb, Option.some.injEq, Prod.mk.injEq] at h
    obtain ⟨h1, -⟩ := h
    subst h1
    exact ⟨rfl, rfl, rfl, rfl, rfl⟩
  · obtain ⟨P, hP⟩ := Option.isSome_iff_exists.mp
      (row_lookup_isSome e.text_buffer (e.cursor_index - 1))
    by_cases hcol : get_cursor_col_index e.text_buffer e.cursor_index > 0
    · simp only [move_cursor_left, if_neg hb, if_pos hcol, Option.some.injEq,
        Prod.mk.injEq] at h
      obtain ⟨h1, -⟩ := h
      subst h1
      exact ⟨rfl, rfl, rfl, rfl, rfl⟩
    · simp only [move_cursor_left, if_neg hb, if_neg hcol, hP, Option.some.injEq,
        Prod.mk.injEq] at h
      obtain ⟨h1, -⟩ := h
      subst h1
      exact ⟨rfl, rfl, rfl, rfl, rfl⟩

theorem move_next_line_frame (e e' : Editor) (acts : List TermAction)
    (h : move_cursor_to_next_line e = some (e', acts)) :
    e'.top_line = e.top_line ∧ e'.text_buffer = e.text_buffer ∧
    e'.width = e.width ∧ e'.height = e.height ∧ e'.mode = e.mode := by
  by_cases hb : get_num_rows e.text_buffer =
      get_cursor_row_index e.text_buffer e.cursor_index + 1
  · simp only [move_cursor_to_next_line, if_pos hb, Option.some.injEq,
      Prod.mk.injEq] at h
    obtain ⟨h1, -⟩ := h
    subst h1
    exact ⟨rfl, rfl, rfl, rfl, rfl⟩
  · obtain ⟨L, hL⟩ := Option.isSome_iff_exists.mp
      (row_lookup_isSome e.text_buffer e.cursor_index)
    by_cases hcol : get_cursor_col_index e.text_buffer e.cursor_index ≤ L.length
    · simp only [move_cursor_to_next_line, if_neg hb, hL, if_pos hcol,
        Option.some.injEq, Prod.mk.injEq] at h
      obtain ⟨h1, -⟩ := h
      subst h1
      exact ⟨rfl, rfl, rfl, rfl, rfl⟩
    · simp only [move_cursor_to_next_line, if_neg hb, hL, if_neg hcol] at h
      simp at h

theorem insert_frame (e e' : Editor) (acts : List TermAction) (c : Char)
    (h : handle_insert_char e c = some (e', acts)) :
    e'.top_line = e.top_line ∧ e'.width = e.width ∧
    e'.height = e.height ∧ e'.mode = e.mode := by
  by_cases hch : ¬ (is_ascii_alphanumeric c ∨ is_ascii_punctuation c)
  · simp only [handle_insert_char, if_pos hch] at h
    simp at h
  · obtain ⟨L, hL⟩ := Option.isSome_iff_exists.mp
      (row_lookup_isSome e.text_buffer e.cursor_index)
    by_cases hw : L.length ≥ e.width
    · simp only [handle_insert_char, if_neg hch, hL, if_pos hw] at h
      simp at h
    · by_cases hcur : e.cursor_index ≤ e.text_buffer.length
      · simp only [handle_insert_char, if_neg hch, hL, if_neg hw, if_pos hcur] at h
        have hf := move_right_frame _ _ _ h
        exact ⟨hf.1, hf.2.2.1, hf.2.2.2.1, hf.2.2.2.2⟩
      · simp only [handle_insert_char, if_neg hch, hL, if_neg hw, if_neg hcur] at h
        simp at h

theorem delete_char_frame (e : Editor) :
    (delete_char e).top_line = e.top_line ∧ (delete_char e).width = e.width ∧
    (delete_char e).height = e.height ∧ (delete_char e).mode = e.mode ∧
    (delete_char e).cursor_index = e.cursor_index := by
  unfold delete_char
  split
  · exact ⟨rfl, rfl, rfl, rfl, rfl⟩
  · split
    · exact ⟨rfl, rfl, rfl, rfl, rfl⟩
    · exact ⟨rfl, rfl, rfl, rfl, rfl⟩

theorem string_insert_length (s : List Char) (i : Nat) (c : Char) (h : i ≤ s.length) :
    (string_insert s i c).length = s.length + 1 := by
  unfold string_insert
  simp
  omega

theorem string_remove_length (s : List Char) (i : Nat) (h : i < s.length) :
    (string_remove s i).length = s.length - 1 := by
  unfold string_remove
  simp
  omega

theorem string_remove_insert (s : List Char) (i : Nat) (c : Char) (h : i ≤ s.length) :
    string_remove (string_insert s i c) i = s := by
  unfold string_remove string_insert
  rw [List.take_append_eq_append_take, List.drop_append_eq_append_drop]
  rw [List.length_take, List.take_take]
  simp only [Nat.min_self, Nat.min_def]
  rw [if_pos h, show i - i = 0 by omega, List.take_zero, List.append_nil,
    show i + 1 - i = 1 by omega]
  rw [List.drop_eq_nil_of_le (by simp), List.nil_append, List.drop_one,
    List.tail_cons, List.take_append_drop]

/-! ## Claim theorems -/

/-- Claim C1, counterexample: in the buffer `"\r\n"` the valid offset 1 sits
on the carriage return; the derived row is 0, the derived column is 0 and no
lines precede row 0, so column plus characters-before-row is 0, not 1.  The
offset/row-column consistency equation therefore fails as stated for
arbitrary buffers. -/
theorem c1_counterexample :
    (1 : Nat) ≤ (['\r', '\n'] : List Char).length ∧
    ¬ (get_cursor_col_index ['\r', '\n'] 1 +
        sum_lines_before ['\r', '\n'] (get_cursor_row_index ['\r', '\n'] 1) = 1) := by
  decide

/-- Claim C1 (amended to buffers without carriage returns): for every
carriage-return-free buffer and every offset `o` with `0 ≤ o ≤ len(B)`, the
derived column plus the characters consumed by all lines strictly before the
derived row equals the offset. -/
theorem c1_amended (buf : List Char) (hcr : '\r' ∉ buf) (o : Nat)
    (ho : o ≤ buf.length) :
    get_cursor_col_index buf o +
      sum_lines_before buf (get_cursor_row_index buf o) = o :=
  (consistency_main buf hcr o ho).1

/-- Witness for `c1_amended` at the buffer `"ab\ncd"` and offset 4. -/
theorem c1_amended_witness :
    '\r' ∉ (['a', 'b', '\n', 'c', 'd'] : List Char) ∧
    (4 : Nat) ≤ (['a', 'b', '\n', 'c', 'd'] : List Char).length ∧
    get_cursor_col_index ['a', 'b', '\n', 'c', 'd'] 4 +
      sum_lines_before ['a', 'b', '\n', 'c', 'd']
        (get_cursor_row_index ['a', 'b', '\n', 'c', 'd'] 4) = 4 :=
  ⟨by decide, by decide, c1_amended ['a', 'b', '\n', 'c', 'd'] (by decide) 4 (by decide)⟩

/-- Claim C7: the line-splitting rule.  The empty buffer yields exactly one
empty line; a buffer ending in a line break yields one extra empty line
after the split result; the buffer `"a\n"` yields exactly the lines `"a"`
and `""`, and offset 2 there resolves to row 1, column 0. -/
theorem c7_line_splitting :
    get_lines [] = [[]] ∧
    (∀ buf : List Char, buf ≠ [] → ends_with_nl buf →
      get_lines buf = rustLines buf ++ [[]]) ∧
    get_lines ['a', '\n'] = [['a'], []] ∧
    get_cursor_row_index ['a', '\n'] 2 = 1 ∧
    get_cursor_col_index ['a', '\n'] 2 = 0 := by
  refine ⟨rfl, ?_, by decide, by decide, by decide⟩
  intro buf hne he
  rw [get_lines, if_neg (by simpa [List.length_eq_zero] using hne), if_pos he]

/-- Witness for `c7_line_splitting` at the buffer `"b\n"`. -/
theorem c7_line_splitting_witness :
    (['b', '\n'] : List Char) ≠ [] ∧ ends_with_nl ['b', '\n'] ∧
    get_lines ['b', '\n'] = rustLines ['b', '\n'] ++ [[]] :=
  ⟨by decide, by decide, c7_line_splitting.2.1 ['b', '\n'] (by decide) (by decide)⟩

/-- Claim C10: for every buffer and every cursor offset within bounds, the
`get_content_of_row` lookup at the derived cursor row returns `Some`, so the
"row was not in bounds" panic branches guarded by it are unreachable. -/
theorem c10_row_lookup_safe (buf : List Char) (cursor : Nat)
    (hcur : cursor ≤ buf.length) :
    (get_content_of_row buf (get_cursor_row_index buf cursor)).isSome :=
  row_lookup_isSome buf cursor

/-- Witness for `c10_row_lookup_safe` at the buffer `"a\nb"` and offset 2. -/
theorem c10_row_lookup_safe_witness :
    (2 : Nat) ≤ (['a', '\n', 'b'] : List Char).length ∧
    (get_content_of_row ['a', '\n', 'b']
      (get_cursor_row_index ['a', '\n', 'b'] 2)).isSome :=
  ⟨by decide, c10_row_lookup_safe ['a', '\n', 'b'] 2 (by decide)⟩

/-- Claim C4: `move_right` is a blocked no-op (sound, state unchanged)
exactly at `offset = len(B)` and otherwise adds exactly 1, never leaving
`[0, len(B)]`; `move_left` is a blocked no-op exactly at `offset = 0` and
otherwise subtracts exactly 1. -/
theorem c4_movement_bounds (e : Editor) (h : e.cursor_index ≤ e.text_buffer.length) :
    (e.cursor_index = e.text_buffer.length →
      move_cursor_right e = some (e, [TermAction.playNotAllowedSound])) ∧
    (e.cursor_index < e.text_buffer.length →
      ∃ acts, move_cursor_right e =
        some ({ e with cursor_index := e.cursor_index + 1 }, acts) ∧
        e.cursor_index + 1 ≤ e.text_buffer.length) ∧
    (e.cursor_index = 0 →
      move_cursor_left e = some (e, [TermAction.playNotAllowedSound])) ∧
    (0 < e.cursor_index →
      ∃ acts, move_cursor_left e =
        some ({ e with cursor_index := e.cursor_index - 1 }, acts)) := by
  refine ⟨?_, ?_, ?_, ?_⟩
  · intro hb
    simp only [move_cursor_right, if_pos hb]
  · intro hlt
    obtain ⟨acts, ha⟩ := move_right_succ e hlt
    exact ⟨acts, ha, by omega⟩
  · intro hb
    simp only [move_cursor_left, if_pos hb]
  · intro hpos
    exact move_left_pred e hpos

/-- Witness for `c4_movement_bounds` at the buffer `"ab"` with the cursor at
offset 1. -/
theorem c4_movement_bounds_witness :
    (1 : Nat) ≤ 2 ∧
    (((1 : Nat) = 2 →
      move_cursor_right { width := 10, height := 10, text_buffer := ['a', 'b'], cursor_index := 1, mode := EditorMode.Normal, top_line := 0 } =
        some ({ width := 10, height := 10, text_buffer := ['a', 'b'], cursor_index := 1, mode := EditorMode.Normal, top_line := 0 },
          [TermAction.playNotAllowedSound])) ∧
    ((1 : Nat) < 2 →
      ∃ acts, move_cursor_right { width := 10, height := 10, text_buffer := ['a', 'b'], cursor_index := 1, mode := EditorMode.Normal, top_line := 0 } =
        some ({ width := 10, height := 10, text_buffer := ['a', 'b'], cursor_index := 1 + 1, mode := EditorMode.Normal, top_line := 0 }, acts) ∧
        1 + 1 ≤ 2) ∧
    ((1 : Nat) = 0 →
      move_cursor_left { width := 10, height := 10, text_buffer := ['a', 'b'], cursor_index := 1, mode := EditorMode.Normal, top_line := 0 } =
        some ({ width := 10, height := 10, text_buffer := ['a', 'b'], cursor_index := 1, mode := EditorMode.Normal, top_line := 0 },
          [TermAction.playNotAllowedSound])) ∧
    ((0 : Nat) < 1 →
      ∃ acts, move_cursor_left { width := 10, height := 10, text_buffer := ['a', 'b'], cursor_index := 1, mode := EditorMode.Normal, top_line := 0 } =
        some ({ width := 10, height := 10, text_buffer := ['a', 'b'], cursor_index := 1 - 1, mode := EditorMode.Normal, top_line := 0 }, acts))) :=
  ⟨by decide, c4_movement_bounds
    { width := 10, height := 10, text_buffer := ['a', 'b'], cursor_index := 1, mode := EditorMode.Normal, top_line := 0 } (by decide)⟩

/-- Claim C6: `delete_char` is a no-op exactly when the buffer is empty or
the cursor is at or after the last valid index; otherwise it removes exactly
the character at the cursor, shortens the buffer by one, and does not move
the cursor. -/
theorem c6_delete_char (e : Editor) (h : e.cursor_index ≤ e.text_buffer.length) :
    (delete_char e = e ↔
      (e.text_buffer.length = 0 ∨ e.text_buffer.length - 1 ≤ e.cursor_index)) ∧
    (e.cursor_index < e.text_buffer.length - 1 →
      (delete_char e).text_buffer = string_remove e.text_buffer e.cursor_index ∧
      (delete_char e).text_buffer.length + 1 = e.text_buffer.length ∧
      (delete_char e).cursor_index = e.cursor_index) := by
  constructor
  · constructor
    · intro heq
      by_contra hno
      push_neg at hno
      obtain ⟨h0, hlt⟩ := hno
      have hlend : (delete_char e).text_buffer.length = e.text_buffer.length - 1 := by
        unfold delete_char
        rw [if_neg h0, if_neg (by omega)]
        exact string_remove_length _ _ (by omega)
      rw [heq] at hlend
      omega
    · intro hcond
      unfold delete_char
      rcases hcond with h0 | hge
      · rw [if_pos h0]
      · by_cases h0 : e.text_buffer.length = 0
        · rw [if_pos h0]
        · rw [if_neg h0, if_pos hge]
  · intro hlt
    have h0 : ¬ e.text_buffer.length = 0 := by omega
    have hgen : ¬ e.cursor_index ≥ e.text_buffer.length - 1 := by omega
    unfold delete_char
    rw [if_neg h0, if_neg hgen]
    refine ⟨rfl, ?_, rfl⟩
    show (string_remove e.text_buffer e.cursor_index).length + 1 = e.text_buffer.length
    rw [string_remove_length _ _ (by omega)]
    omega

/-- Witness for `c6_delete_char` at the buffer `"abc"` with the cursor at
offset 0. -/
theorem c6_delete_char_witness :
    (0 : Nat) ≤ 3 ∧
    ((delete_char { width := 10, height := 10, text_buffer := ['a', 'b', 'c'], cursor_index := 0, mode := EditorMode.Normal, top_line := 0 } =
      { width := 10, height := 10, text_buffer := ['a', 'b', 'c'], cursor_index := 0, mode := EditorMode.Normal, top_line := 0 } ↔
      ((3 : Nat) = 0 ∨ (3 : Nat) - 1 ≤ 0)) ∧
    ((0 : Nat) < 3 - 1 →
      (delete_char { width := 10, height := 10, text_buffer := ['a', 'b', 'c'], cursor_index := 0, mode := EditorMode.Normal, top_line := 0 }).text_buffer =
        string_remove ['a', 'b', 'c'] 0 ∧
      (delete_char { width := 10, height := 10, text_buffer := ['a', 'b', 'c'], cursor_index := 0, mode := EditorMode.Normal, top_line := 0 }).text_buffer.length + 1 = 3 ∧
      (delete_char { width := 10, height := 10, text_buffer := ['a', 'b', 'c'], cursor_index := 0, mode := EditorMode.Normal, top_line := 0 }).cursor_index = 0)) :=
  ⟨by decide, c6_delete_char
    { width := 10, height := 10, text_buffer := ['a', 'b', 'c'], cursor_index := 0, mode := EditorMode.Normal, top_line := 0 } (by decide)⟩

/-- Claim C9: the horizontal operations (`move_right`, `move_left`,
`move_to_next_line`) leave `top_line`, the buffer, the dimensions and the
mode unchanged, and `insert_char` / `delete_char` never touch `top_line`:
only `move_down` / `move_up` ever modify it. -/
theorem c9_horizontal_frame (e : Editor) :
    (∀ e' acts, move_cursor_right e = some (e', acts) →
      e'.top_line = e.top_line ∧ e'.text_buffer = e.text_buffer ∧
      e'.width = e.width ∧ e'.height = e.height ∧ e'.mode = e.mode) ∧
    (∀ e' acts, move_cursor_left e = some (e', acts) →
      e'.top_line = e.top_line ∧ e'.text_buffer = e.text_buffer ∧
      e'.width = e.width ∧ e'.height = e.height ∧ e'.mode = e.mode) ∧
    (∀ e' acts, move_cursor_to_next_line e = some (e', acts) →
      e'.top_line = e.top_line ∧ e'.text_buffer = e.text_buffer ∧
      e'.width = e.width ∧ e'.height = e.height ∧ e'.mode = e.mode) ∧
    (∀ e' acts c, handle_insert_char e c = some (e', acts) →
      e'.top_line = e.top_line) ∧
    (delete_char e).top_line = e.top_line :=
  ⟨fun e' acts h => move_right_frame e e' acts h,
   fun e' acts h => move_left_frame e e' acts h,
   fun e' acts h => move_next_line_frame e e' acts h,
   fun e' acts c h => (insert_frame e e' acts c h).1,
   (delete_char_frame e).1⟩

/-- Witness for `c9_horizontal_frame`: a concrete successful `move_right`
step on `"ab"` keeps `top_line`, buffer, dimensions and mode. -/
theorem c9_horizontal_frame_witness :
    move_cursor_right { width := 10, height := 10, text_buffer := ['a', 'b'], cursor_index := 0, mode := EditorMode.Normal, top_line := 0 } =
      some ({ width := 10, height := 10, text_buffer := ['a', 'b'], cursor_index := 1, mode := EditorMode.Normal, top_line := 0 },
        [TermAction.moveRight 1]) ∧
    ((0 : Nat) = 0 ∧ (['a', 'b'] : List Char) = ['a', 'b'] ∧
      (10 : Nat) = 10 ∧ (10 : Nat) = 10 ∧ EditorMode.Normal = EditorMode.Normal) :=
  ⟨by decide,
    (c9_horizontal_frame { width := 10, height := 10, text_buffer := ['a', 'b'], cursor_index := 0, mode := EditorMode.Normal, top_line := 0 }).1
      { width := 10, height := 10, text_buffer := ['a', 'b'], cursor_index := 1, mode := EditorMode.Normal, top_line := 0 }
      [TermAction.moveRight 1] (by decide)⟩

/-- Claim C8, failing input: on the buffer `"x\r\nab\nc"` (length 7) with
`cursor_index = 5` (a valid offset), `move_cursor_down` sets the cursor to
8, which is beyond the end of the buffer: the cursor invariant
`0 ≤ cursor_index ≤ len(text_buffer)` is not preserved.  The root cause is
that `get_cursor_col_index` walks `lines()` (which strips `"\r\n"` to one
character less) while the cursor offset counts raw characters. -/
theorem c8_invariant_violation :
    (['x', '\r', '\n', 'a', 'b', '\n', 'c'] : List Char).length = 7 ∧
    (5 : Nat) ≤ 7 ∧
    ((move_cursor_down { width := 80, height := 24, text_buffer := ['x', '\r', '\n', 'a', 'b', '\n', 'c'], cursor_index := 5, mode := EditorMode.Normal, top_line := 0 }).map fun p => p.fst.cursor_index) =
      some 8 ∧
    ¬ ((8 : Nat) ≤ 7) := by
  decide

/-- Claim C2, counterexample: buffer `"ab"`, offset 0, character `'x'`.
Inserting gives `"xab"` with the cursor at 1; `delete_char` at that cursor
removes the `'a'` that originally followed, giving `"xb"` — neither the
buffer nor the offset is restored. -/
theorem c2_counterexample :
    ((handle_insert_char { width := 80, height := 24, text_buffer := ['a', 'b'], cursor_index := 0, mode := EditorMode.Insert, top_line := 0 } 'x').map
      fun p => delete_char p.fst) =
      some { width := 80, height := 24, text_buffer := ['x', 'b'], cursor_index := 1, mode := EditorMode.Insert, top_line := 0 } ∧
    (['x', 'b'] : List Char) ≠ ['a', 'b'] ∧ (1 : Nat) ≠ 0 := by
  decide

/-- Claim C3, counterexample: buffer `"a\nb\nc\nd\ne"`, `height = 4`,
`top_line = 0`, cursor at offset 2 — that is, on row 1 = `top_line + H - 3`.
`move_cursor_down` does not scroll (`top_line` stays 0): the scroll happens
one row later than the claim states. -/
theorem c3_counterexample :
    cursor_row { width := 80, height := 4, text_buffer := ['a', '\n', 'b', '\n', 'c', '\n', 'd', '\n', 'e'], cursor_index := 2, mode := EditorMode.Normal, top_line := 0 } = 0 + 4 - 3 ∧
    ¬ (((move_cursor_down { width := 80, height := 4, text_buffer := ['a', '\n', 'b', '\n', 'c', '\n', 'd', '\n', 'e'], cursor_index := 2, mode := EditorMode.Normal, top_line := 0 }).map
      fun p => p.fst.top_line) = some (0 + 1)) := by
  decide

/-- Claim C5, counterexample: buffer `"ab\r\n\nz"`, cursor at offset 2
(the `'\r'`): the derived position is row 0, column 2, and the next line
(row 1) is empty, so the column exceeds its length — yet `move_cursor_down`
lands at derived row 0, not at the end of row 1. -/
theorem c5_counterexample :
    get_cursor_row_index ['a', 'b', '\r', '\n', '\n', 'z'] 2 = 0 ∧
    get_cursor_col_index ['a', 'b', '\r', '\n', '\n', 'z'] 2 = 2 ∧
    row_len_at ['a', 'b', '\r', '\n', '\n', 'z'] 1 = 0 ∧
    ¬ (((move_cursor_down { width := 80, height := 24, text_buffer := ['a', 'b', '\r', '\n', '\n', 'z'], cursor_index := 2, mode := EditorMode.Normal, top_line := 0 }).map
      fun p => cursor_row p.fst) = some 1) := by
  decide

/-- Claim C3 (amended): the downward scroll fires one row later than the
original claim said.  Moving down from row `top_line + H - 2` (the bottom
visible row) moves the cursor to row `top_line + H - 1` and increments
`top_line` by exactly 1, with the terminal cursor's rendered row unchanged;
and in general a downward scroll occurs exactly when
`current_row - top_line ≥ height - 2` at the moment of the move. -/
theorem c3_amended :
    (∀ e : Editor, '\r' ∉ e.text_buffer → e.cursor_index ≤ e.text_buffer.length →
      cursor_row e + 1 < get_num_rows e.text_buffer →
      2 ≤ e.height → cursor_row e = e.top_line + e.height - 2 →
      ∃ e' acts, move_cursor_down e = some (e', acts) ∧
        e'.top_line = e.top_line + 1 ∧
        cursor_row e' = cursor_row e + 1 ∧
        actionsRowDelta acts = 0) ∧
    (∀ e : Editor, '\r' ∉ e.text_buffer → e.cursor_index ≤ e.text_buffer.length →
      cursor_row e + 1 < get_num_rows e.text_buffer →
      ∀ e' acts, move_cursor_down e = some (e', acts) →
        (e'.top_line = e.top_line + 1 ↔
          e.height - 2 ≤ cursor_row e - e.top_line)) := by
  constructor
  · intro e hcr hc hnb hH hrow
    obtain ⟨e', acts, heq, _, _, _, _, htop, hrow', _, _, hdelta⟩ :=
      move_down_spec e hcr hc hnb
    have hcond : e.height - 2 ≤ cursor_row e - e.top_line := by
      rw [hrow]
      omega
    refine ⟨e', acts, heq, ?_, hrow', ?_⟩
    · rw [htop, if_pos hcond]
    · rw [hdelta, if_pos hcond]
  · intro e hcr hc hnb e' acts heq
    obtain ⟨e0, acts0, heq0, _, _, _, _, htop, _, _, _, _⟩ :=
      move_down_spec e hcr hc hnb
    rw [heq] at heq0
    simp only [Option.some.injEq, Prod.mk.injEq] at heq0
    obtain ⟨h1, -⟩ := heq0
    subst h1
    rw [htop]
    by_cases hcond : e.height - 2 ≤ cursor_row e - e.top_line
    · rw [if_pos hcond]
      simp [hcond]
    · rw [if_neg hcond]
      constructor
      · intro hfalse
        omega
      · intro hcontra
        exact absurd hcontra hcond

/-- Witness for `c3_amended`: buffer `"a\nb\nc"`, `height = 3`,
`top_line = 0`, cursor at offset 2 (row 1, the bottom visible row): moving
down scrolls to `top_line = 1`, lands on row 2, and does not move the
terminal cursor vertically. -/
theorem c3_amended_witness :
    '\r' ∉ (['a', '\n', 'b', '\n', 'c'] : List Char) ∧
    (2 : Nat) ≤ 5 ∧
    cursor_row { width := 5, height := 3, text_buffer := ['a', '\n', 'b', '\n', 'c'], cursor_index := 2, mode := EditorMode.Normal, top_line := 0 } + 1 <
      get_num_rows ['a', '\n', 'b', '\n', 'c'] ∧
    (∃ e' acts, move_cursor_down { width := 5, height := 3, text_buffer := ['a', '\n', 'b', '\n', 'c'], cursor_index := 2, mode := EditorMode.Normal, top_line := 0 } = some (e', acts) ∧
      e'.top_line = 0 + 1 ∧
      cursor_row e' = 1 + 1 ∧
      actionsRowDelta acts = 0) :=
  ⟨by decide, by decide, by decide,
    c3_amended.1 { width := 5, height := 3, text_buffer := ['a', '\n', 'b', '\n', 'c'], cursor_index := 2, mode := EditorMode.Normal, top_line := 0 }
      (by decide) (by decide) (by decide) (by decide) (by decide)⟩

/-- Claim C5 (amended to buffers without carriage returns): moving down or
up onto an adjacent line shorter than the current column lands the cursor
exactly at that line's end: derived row is the adjacent row, derived column
is that line's length. -/
theorem c5_amended :
    (∀ e : Editor, '\r' ∉ e.text_buffer → e.cursor_index ≤ e.text_buffer.length →
      cursor_row e + 1 < get_num_rows e.text_buffer →
      row_len_at e.text_buffer (cursor_row e + 1) < cursor_col e →
      ∃ e' acts, move_cursor_down e = some (e', acts) ∧
        cursor_row e' = cursor_row e + 1 ∧
        cursor_col e' = row_len_at e.text_buffer (cursor_row e + 1)) ∧
    (∀ e : Editor, '\r' ∉ e.text_buffer → e.cursor_index ≤ e.text_buffer.length →
      0 < cursor_row e →
      row_len_at e.text_buffer (cursor_row e - 1) < cursor_col e →
      ∃ e' acts, move_cursor_up e = some (e', acts) ∧
        cursor_row e' = cursor_row e - 1 ∧
        cursor_col e' = row_len_at e.text_buffer (cursor_row e - 1)) := by
  constructor
  · intro e hcr hc hnb hclamp
    obtain ⟨e', acts, heq, _, _, _, _, _, hrow', hcol, _, _⟩ :=
      move_down_spec e hcr hc hnb
    refine ⟨e', acts, heq, hrow', ?_⟩
    rw [hcol]
    omega
  · intro e hcr hc h0 hclamp
    obtain ⟨e', acts, heq, _, _, _, _, _, hrow', hcol, _, _⟩ :=
      move_up_spec e hcr hc h0
    refine ⟨e', acts, heq, hrow', ?_⟩
    rw [hcol]
    omega

/-- Witness for `c5_amended`: buffer `"a\nxyz\nb"`, cursor at offset 5
(row 1, column 3); both adjacent lines have length 1 < 3, and moving down
lands at row 2 column 1, moving up at row 0 column 1. -/
theorem c5_amended_witness :
    '\r' ∉ (['a', '\n', 'x', 'y', 'z', '\n', 'b'] : List Char) ∧
    (5 : Nat) ≤ 7 ∧
    (∃ e' acts, move_cursor_down { width := 80, height := 24, text_buffer := ['a', '\n', 'x', 'y', 'z', '\n', 'b'], cursor_index := 5, mode := EditorMode.Normal, top_line := 0 } = some (e', acts) ∧
      cursor_row e' = 1 + 1 ∧
      cursor_col e' = row_len_at ['a', '\n', 'x', 'y', 'z', '\n', 'b'] (1 + 1)) ∧
    (∃ e' acts, move_cursor_up { width := 80, height := 24, text_buffer := ['a', '\n', 'x', 'y', 'z', '\n', 'b'], cursor_index := 5, mode := EditorMode.Normal, top_line := 0 } = some (e', acts) ∧
      cursor_row e' = 1 - 1 ∧
      cursor_col e' = row_len_at ['a', '\n', 'x', 'y', 'z', '\n', 'b'] (1 - 1)) :=
  ⟨by decide, by decide,
    c5_amended.1 { width := 80, height := 24, text_buffer := ['a', '\n', 'x', 'y', 'z', '\n', 'b'], cursor_index := 5, mode := EditorMode.Normal, top_line := 0 }
      (by decide) (by decide) (by decide) (by decide),
    c5_amended.2 { width := 80, height := 24, text_buffer := ['a', '\n', 'x', 'y', 'z', '\n', 'b'], cursor_index := 5, mode := EditorMode.Normal, top_line := 0 }
      (by decide) (by decide) (by decide) (by decide)⟩

theorem delete_char_of_valid (e : Editor) (h0 : ¬ e.text_buffer.length = 0)
    (h1 : ¬ e.cursor_index ≥ e.text_buffer.length - 1) :
    delete_char e = { e with text_buffer := string_remove e.text_buffer e.cursor_index } := by
  unfold delete_char
  rw [if_neg h0, if_neg h1]

/-- Claim C2 (amended): the inverse of `insert_char` at offset `o` is
`delete_char` at offset `o` (the inserted character's position), not at
`o + 1`, and the cursor must first be moved back.  Inserting `c` at offset
`o < len(B)`, then `move_cursor_left`, then `delete_char`, restores the
original buffer content and the original offset `o`; `delete_char` itself
never moves the cursor. -/
theorem c2_amended (e : Editor) (c : Char)
    (hch : is_ascii_alphanumeric c = true ∨ is_ascii_punctuation c = true)
    (hcur : e.cursor_index < e.text_buffer.length)
    (hwidth : row_len_at e.text_buffer (cursor_row e) < e.width) :
    ((handle_insert_char e c).bind fun p =>
      (move_cursor_left p.fst).map fun q => delete_char q.fst) = some e := by
  have hbne : e.text_buffer ≠ [] := by
    intro hnil
    rw [hnil] at hcur
    simp at hcur
  have h1 : get_content_of_row e.text_buffer
      (get_cursor_row_index e.text_buffer e.cursor_index) =
      some ((get_lines e.text_buffer)[get_cursor_row_index e.text_buffer e.cursor_index]?.getD []) :=
    row_lookup_lt_isSome _ _ (row_lt_get_lines_length _ _ hbne)
  simp only [cursor_row] at hwidth
  have hw : ¬ ((get_lines e.text_buffer)[get_cursor_row_index e.text_buffer e.cursor_index]?.getD []).length ≥ e.width := by
    rw [show ((get_lines e.text_buffer)[get_cursor_row_index e.text_buffer e.cursor_index]?.getD []).length =
      row_len_at e.text_buffer (get_cursor_row_index e.text_buffer e.cursor_index) from rfl]
    omega
  have hins : handle_insert_char e c =
      move_cursor_right { e with text_buffer := string_insert e.text_buffer e.cursor_index c } := by
    simp only [handle_insert_char, if_neg (not_not_intro hch), h1, if_neg hw,
      if_pos (Nat.le_of_lt hcur)]
  have hlt2 : ({ e with text_buffer := string_insert e.text_buffer e.cursor_index c } : Editor).cursor_index <
      ({ e with text_buffer := string_insert e.text_buffer e.cursor_index c } : Editor).text_buffer.length := by
    show e.cursor_index < (string_insert e.text_buffer e.cursor_index c).length
    rw [string_insert_length _ _ _ (Nat.le_of_lt hcur)]
    omega
  obtain ⟨acts, hmr⟩ := move_right_succ _ hlt2
  rw [hins, hmr]
  have hpos : 0 < ({ { e with text_buffer := string_insert e.text_buffer e.cursor_index c } with
      cursor_index := ({ e with text_buffer := string_insert e.text_buffer e.cursor_index c } : Editor).cursor_index + 1 } : Editor).cursor_index := by
    show 0 < e.cursor_index + 1
    omega
  obtain ⟨acts2, hml⟩ := move_left_pred _ hpos
  rw [Option.some_bind, hml, Option.map_some']
  refine congrArg some ?_
  have hdel := delete_char_of_valid
    { width := e.width, height := e.height, text_buffer := string_insert e.text_buffer e.cursor_index c, cursor_index := e.cursor_index + 1 - 1, mode := e.mode, top_line := e.top_line }
    (by
      show ¬ (string_insert e.text_buffer e.cursor_index c).length = 0
      rw [string_insert_length _ _ _ (Nat.le_of_lt hcur)]
      omega)
    (by
      show ¬ e.cursor_index + 1 - 1 ≥ (string_insert e.text_buffer e.cursor_index c).length - 1
      rw [string_insert_length _ _ _ (Nat.le_of_lt hcur)]
      omega)
  refine Eq.trans hdel ?_
  show ({ width := e.width, height := e.height, text_buffer := string_remove (string_insert e.text_buffer e.cursor_index c) (e.cursor_index + 1 - 1), cursor_index := e.cursor_index + 1 - 1, mode := e.mode, top_line := e.top_line } : Editor) = e
  rw [show e.cursor_index + 1 - 1 = e.cursor_index from rfl,
    string_remove_insert e.text_buffer e.cursor_index c (Nat.le_of_lt hcur)]

/-- Witness for `c2_amended`: buffer `"ab"`, offset 0, character `'x'`. -/
theorem c2_amended_witness :
    (is_ascii_alphanumeric 'x' = true ∨ is_ascii_punctuation 'x' = true) ∧
    (0 : Nat) < 2 ∧
    row_len_at ['a', 'b'] (cursor_row { width := 80, height := 24, text_buffer := ['a', 'b'], cursor_index := 0, mode := EditorMode.Insert, top_line := 0 }) < 80 ∧
    ((handle_insert_char { width := 80, height := 24, text_buffer := ['a', 'b'], cursor_index := 0, mode := EditorMode.Insert, top_line := 0 } 'x').bind fun p =>
      (move_cursor_left p.fst).map fun q => delete_char q.fst) =
      some { width := 80, height := 24, text_buffer := ['a', 'b'], cursor_index := 0, mode := EditorMode.Insert, top_line := 0 } :=
  ⟨by decide, by decide, by decide,
    c2_amended { width := 80, height := 24, text_buffer := ['a', 'b'], cursor_index := 0, mode := EditorMode.Insert, top_line := 0 } 'x'
      (by decide) (by decide) (by decide)⟩
